import Mathlib

/-!
Verification of the operation-journey instrumentation (`op_journey.h` /
`op_journey.cpp`): a per-operation phase timer (`OpJourney`), an RAII stage
guard (`OpJourney::ScopedStage`), and a process-wide aggregator
(`OpJourney::Observer`).

Modelling conventions:
* `Nanoseconds` (an `int64` count) is modelled as `Int`; clock reads
  (`getElapsedTime`, CLOCK_MONOTONIC) are passed in as explicit `Int`
  arguments, with monotonicity stated as hypotheses where a claim needs it.
* `std::vector` indexing out of bounds and `invariant(...)` failures are
  modelled by returning `none` / `Except.error`.
* The sequential semantics of the atomic read-modify-write loops in
  `Observer::capture` is taken: a compare-and-swap with no interfering
  writer succeeds, so the max loop stores `max(old, d)` and the min loop
  stores `min(old, d)`.
-/

namespace OpJourneyModel

/-- The `OpJourney::Stage` enumeration as declared in `op_journey.h`:
`kRunning = 0`, then `kNetworkSync`, `kReleased`, and `kDestroyed` last. -/
inductive Stage where
  | kRunning
  | kNetworkSync
  | kReleased
  | kDestroyed
deriving Repr

/-- Equality of stages is decidable by direct case comparison.  (Spelled
out so that it reduces during kernel evaluation of concrete runs.) -/
instance : DecidableEq Stage := fun a b =>
  match a, b with
  | .kRunning, .kRunning => isTrue rfl
  | .kNetworkSync, .kNetworkSync => isTrue rfl
  | .kReleased, .kReleased => isTrue rfl
  | .kDestroyed, .kDestroyed => isTrue rfl
  | .kRunning, .kNetworkSync => isFalse nofun
  | .kRunning, .kReleased => isFalse nofun
  | .kRunning, .kDestroyed => isFalse nofun
  | .kNetworkSync, .kRunning => isFalse nofun
  | .kNetworkSync, .kReleased => isFalse nofun
  | .kNetworkSync, .kDestroyed => isFalse nofun
  | .kReleased, .kRunning => isFalse nofun
  | .kReleased, .kNetworkSync => isFalse nofun
  | .kReleased, .kDestroyed => isFalse nofun
  | .kDestroyed, .kRunning => isFalse nofun
  | .kDestroyed, .kNetworkSync => isFalse nofun
  | .kDestroyed, .kReleased => isFalse nofun

/-- The underlying ordinal of a `Stage` (`kRunning = 0`, ..., `kDestroyed = 3`). -/
def Stage.toNat : Stage → Nat
  | .kRunning => 0
  | .kNetworkSync => 1
  | .kReleased => 2
  | .kDestroyed => 3

/-- `static_cast<Stage>(n)` for the profile loop indices `0 ≤ n < kDestroyed`. -/
def Stage.ofIdx : Fin 3 → Stage
  | 0 => .kRunning
  | 1 => .kNetworkSync
  | 2 => .kReleased

/-- The index of a stage into the per-phase arrays, which have
`static_cast<size_t>(kDestroyed) = 3` entries; `kDestroyed` itself has no
entry, so indexing a length-3 vector with it is out of bounds (`none`). -/
def Stage.profileIdx : Stage → Option (Fin 3)
  | .kRunning => some 0
  | .kNetworkSync => some 1
  | .kReleased => some 2
  | .kDestroyed => none

/-- `stageToString` restricted to the enumerators that `op_journey.h`
actually declares; each returns the fixed name from the matching `case` of
the switch in `op_journey.cpp`. -/
def stageToString : Stage → String
  | .kRunning => "running"
  | .kNetworkSync => "egress"
  | .kReleased => "released"
  | .kDestroyed => "destroyed"

/-- The full switch of `stageToString` as a function on the raw ordinal an
enum value carries: the `case` labels for the declared enumerators return
their names, and every other ordinal falls into the
`default: MONGO_UNREACHABLE;` branch, modelled as `none`. -/
def stageToStringRaw (n : Nat) : Option String :=
  if n = Stage.kRunning.toNat then some "running"
  else if n = Stage.kNetworkSync.toNat then some "egress"
  else if n = Stage.kReleased.toNat then some "released"
  else if n = Stage.kDestroyed.toNat then some "destroyed"
  else none

/-- Store `v` at index `i` of a length-3 array modelled as a function
(`arr[i] = v`). -/
def setIdx {α : Type} (f : Fin 3 → α) (i : Fin 3) (v : α) : Fin 3 → α :=
  fun x => if x = i then v else f x

/-- `OpJourney::State`: the current stage and the process time at which it
was entered. -/
structure State where
  stage : Stage
  entered : Int
deriving Repr

instance : DecidableEq State := fun a b =>
  if h1 : a.stage = b.stage then
    if h2 : a.entered = b.entered then
      isTrue (by cases a; cases b; simp_all)
    else isFalse (fun h => h2 (by rw [h]))
  else isFalse (fun h => h1 (by rw [h]))

/-- `OpJourney`: creation time `_created`, the current `_current` state,
and `_profile`, a vector of `static_cast<size_t>(kDestroyed) = 3`
accumulated per-stage durations. -/
structure OpJourney where
  created : Int
  current : State
  profile : Fin 3 → Int

instance : DecidableEq OpJourney := fun a b =>
  if h1 : a.created = b.created then
    if h2 : a.current = b.current then
      if h3 : a.profile = b.profile then
        isTrue (by cases a; cases b; simp_all)
      else isFalse (fun h => h3 (by rw [h]))
    else isFalse (fun h => h2 (by rw [h]))
  else isFalse (fun h => h1 (by rw [h]))

/-- A transport-free decision procedure for optional values, used to
evaluate concrete runs of the fallible operations. -/
instance {α : Type} [DecidableEq α] : DecidableEq (Option α) := fun a b =>
  match a, b with
  | none, none => isTrue rfl
  | some x, some y =>
      if h : x = y then isTrue (by rw [h]) else isFalse (fun hh => h (by cases hh; rfl))
  | none, some _ => isFalse nofun
  | some _, none => isFalse nofun

/-- The `OpJourney(opCtx, stage)` constructor: `_created = getElapsedTime()`,
`_current = {stage, _created}`, `_profile` filled with `Nanoseconds(0)`.
The clock value read by `getElapsedTime` is the argument `now`. -/
def OpJourney.construct (stage : Stage) (now : Int) : OpJourney :=
  { created := now
    current := { stage := stage, entered := now }
    profile := fun _ => 0 }

/-- `OpJourney::enterStage(stage)`: exchange `_current.stage` with the new
stage; if the old stage equals the new one, return; otherwise read the
clock (argument `now`), add `now - _current.entered` to
`_profile[oldStage]`, and set `_current.entered = now`. Writing
`_profile[kDestroyed]` would be out of bounds, hence `none`. -/
def OpJourney.enterStage (j : OpJourney) (stage : Stage) (now : Int) :
    Option OpJourney :=
  let oldStage := j.current.stage
  let j' := { j with current := { j.current with stage := stage } }
  if oldStage = stage then
    some j'
  else
    match oldStage.profileIdx with
    | none => none
    | some i =>
        some { j' with
          profile := setIdx j'.profile i
            (j'.profile i + (now - j'.current.entered))
          current := { stage := stage, entered := now } }

/-- Run a sequence of `enterStage` calls; each list element pairs the stage
argument with the clock value `getElapsedTime` returns inside that call. -/
def OpJourney.runStages (j : OpJourney) : List (Stage × Int) → Option OpJourney
  | [] => some j
  | (s, t) :: rest => (j.enterStage s t).bind (fun j' => j'.runStages rest)

/-- The sum of the `_profile` entries of a journey. -/
def OpJourney.sumProfile (j : OpJourney) : Int :=
  j.profile 0 + j.profile 1 + j.profile 2

/-- `OpJourney::append(bob)`: for every stage with a nonzero recorded
duration, emit a `{stage_name: duration}` entry and add the duration to a
running `sum`; finally compute `total = getElapsedTime() - _created` (the
clock value of that read is the argument `now`) and emit
`other = total - sum`.  The result is the entry list and the `other`
value. -/
def OpJourney.append (j : OpJourney) (now : Int) :
    List (String × Int) × Int :=
  let r := (List.finRange 3).foldl
    (fun (acc : List (String × Int) × Int) (i : Fin 3) =>
      if j.profile i = 0 then acc
      else (acc.1 ++ [(stageToString (Stage.ofIdx i), j.profile i)],
            acc.2 + j.profile i))
    ([], 0)
  (r.1, (now - j.created) - r.2)

/-- `~OpJourney()` begins by forcing `enterStage(kDestroyed)`; this is the
finalizing transition at teardown (the `capture` and logging that follow
are modelled separately).  The argument `now` is the clock value of the
`getElapsedTime()` call inside that `enterStage`.  This always succeeds:
either the journey is already in `kDestroyed` (no-op path) or the old
stage is non-terminal and `_profile[oldStage]` is in bounds. -/
def OpJourney.destroy (j : OpJourney) (now : Int) : Option OpJourney :=
  j.enterStage .kDestroyed now

/-- `OpJourney::ScopedStage`: it stores `_oldStage`, the journey's current
stage at construction. -/
structure ScopedStage where
  oldStage : Stage
deriving Repr

/-- The `ScopedStage(opCtx, stage)` constructor: record the journey's
current stage as `_oldStage`, then call `enterStage(stage)` on the
journey (clock value `now`).  Returns the guard and the updated journey. -/
def ScopedStage.construct (j : OpJourney) (stage : Stage) (now : Int) :
    ScopedStage × Option OpJourney :=
  (⟨j.current.stage⟩, j.enterStage stage now)

/-- The `~ScopedStage()` destructor: call `enterStage(_oldStage)` on the
journey (clock value `now`). -/
def ScopedStage.destruct (g : ScopedStage) (j : OpJourney) (now : Int) :
    Option OpJourney :=
  j.enterStage g.oldStage now

/-- `OpJourney::enable(opCtx)`: if tracking is disabled, return leaving the
decoration untouched; otherwise `invariant(runsOnClientThread(opCtx))` and
`invariant(!getOpJourney(opCtx).has_value())` — a failed invariant is a
fatal assertion, modelled as `Except.error` — and finally
`getOpJourney(opCtx).emplace(opCtx, kRunning)`.  The state threaded here is
the operation's decoration slot (`attached`); `now` is the clock value the
`OpJourney` constructor reads. -/
def OpJourney.enable (trackingEnabled : Bool) (onClientThread : Bool)
    (attached : Option OpJourney) (now : Int) :
    Except String (Option OpJourney) :=
  if !trackingEnabled then .ok attached
  else if !onClientThread then .error "invariant failure: runsOnClientThread"
  else if attached.isSome then .error "invariant failure: journey already attached"
  else .ok (some (OpJourney.construct .kRunning now))

/-- One `_summary` element of `OpJourney::Observer`: the per-stage
operation count and summed duration. -/
structure SummaryEntry where
  ops : Int
  duration : Int
deriving Repr

instance : DecidableEq SummaryEntry := fun a b =>
  if h1 : a.ops = b.ops then
    if h2 : a.duration = b.duration then
      isTrue (by cases a; cases b; simp_all)
    else isFalse (fun h => h2 (by rw [h]))
  else isFalse (fun h => h1 (by rw [h]))

/-- `OpJourney::Observer`: `_totalOps`, and the three per-stage arrays
`_max`, `_min` and `_summary`, each sized `static_cast<size_t>(kDestroyed)`. -/
structure Observer where
  totalOps : Int
  max : Fin 3 → Int
  min : Fin 3 → Int
  summary : Fin 3 → SummaryEntry

instance : DecidableEq Observer := fun a b =>
  if h1 : a.totalOps = b.totalOps then
    if h2 : a.max = b.max then
      if h3 : a.min = b.min then
        if h4 : a.summary = b.summary then
          isTrue (by cases a; cases b; simp_all)
        else isFalse (fun h => h4 (by rw [h]))
      else isFalse (fun h => h3 (by rw [h]))
    else isFalse (fun h => h2 (by rw [h]))
  else isFalse (fun h => h1 (by rw [h]))

/-- `Nanoseconds::min().count()`: the smallest `int64` value. -/
def nanosMinRep : Int := -(2 ^ 63)

/-- `Nanoseconds::max().count()`: the largest `int64` value. -/
def nanosMaxRep : Int := 2 ^ 63 - 1

/-- The `Observer()` constructor: `_totalOps(0)`, zero-initialized
`_summary` entries, and a loop storing `Nanoseconds::min().count()` into
every `_max[stage]` and `Nanoseconds::max().count()` into every
`_min[stage]`. -/
def Observer.init : Observer :=
  { totalOps := 0
    max := fun _ => nanosMinRep
    min := fun _ => nanosMaxRep
    summary := fun _ => { ops := 0, duration := 0 } }

/-- One iteration of the stage loop of `Observer::capture` for stage index
`i` with `durNanos = journey->_profile[i].count()`: skip if the duration is
zero; otherwise `fetchAndAdd` 1 to `_summary[i].ops`, `fetchAndAdd` the
duration to `_summary[i].duration`, and run the two compare-and-swap loops,
which with no interfering writer store the larger of `_max[i]` and
`durNanos`, and the smaller of `_min[i]` and `durNanos`. -/
def Observer.captureLoopBody (o : Observer) (i : Fin 3) (durNanos : Int) :
    Observer :=
  if durNanos = 0 then o
  else
    { o with
      summary := setIdx o.summary i
        { ops := (o.summary i).ops + 1
          duration := (o.summary i).duration + durNanos }
      max := setIdx o.max i
        (if o.max i < durNanos then durNanos else o.max i)
      min := setIdx o.min i
        (if durNanos < o.min i then durNanos else o.min i) }

/-- The body of `Observer::capture` after its `invariant`: the loop over
all stage indices followed by `_totalOps.fetchAndAdd(1)`. -/
def Observer.captureCore (o : Observer) (profile : Fin 3 → Int) : Observer :=
  let o' := (List.finRange 3).foldl
    (fun acc i => acc.captureLoopBody i (profile i)) o
  { o' with totalOps := o'.totalOps + 1 }

/-- `Observer::capture(journey)`: `invariant(journey->_current.stage ==
kDestroyed)` — modelled as `none` on failure — then merge the journey's
profile and increment `_totalOps`. -/
def Observer.capture (o : Observer) (j : OpJourney) : Option Observer :=
  if j.current.stage = Stage.kDestroyed then some (o.captureCore j.profile)
  else none

/-- Apply `Observer::capture` to a list of journeys, one at a time. -/
def Observer.runCaptures (o : Observer) : List OpJourney → Option Observer
  | [] => some o
  | j :: rest => (o.capture j).bind (fun o' => o'.runCaptures rest)

/-- `Observer::append(bob)`: load `_totalOps` into `ops`; for every stage
index with nonzero `_summary[stage].ops`, emit an entry with the stage's
name, `_min[stage]`, `_max[stage]`, and
`avg = _summary[stage].duration / _summary[stage].ops` (C++ `int64`
division, i.e. `Int.tdiv`); then emit `ops` as `"operations"` and
`ops == _totalOps.load()` as `"stable"`.  The second `_totalOps` load may
observe interleaved `capture` calls, so its value is the explicit argument
`reload`; in a quiescent run `reload = o.totalOps`. -/
def Observer.append (o : Observer) (reload : Int) :
    List (String × Int × Int × Int) × Int × Bool :=
  let ops := o.totalOps
  let entries := (List.finRange 3).foldl
    (fun (acc : List (String × Int × Int × Int)) (i : Fin 3) =>
      if (o.summary i).ops = 0 then acc
      else acc ++ [(stageToString (Stage.ofIdx i), o.min i, o.max i,
                    Int.tdiv (o.summary i).duration (o.summary i).ops)])
    []
  (entries, ops, decide (ops = reload))

/-- Componentwise growth of the Observer: every counting field is at least
as large, `_max` entries have not decreased and `_min` entries have not
increased. -/
def ObserverLE (a b : Observer) : Prop :=
  a.totalOps ≤ b.totalOps ∧
  ∀ i, (a.summary i).ops ≤ (b.summary i).ops ∧
    (a.summary i).duration ≤ (b.summary i).duration ∧
    a.max i ≤ b.max i ∧ b.min i ≤ a.min i

/-- The inductive invariant of the Observer state: counts and sums are
nonnegative, a phase never outcounts `_totalOps`, an unseen phase has zero
summed duration, and for a seen phase the summed duration lies between
`ops * _min` and `ops * _max`. -/
def ObserverInv (o : Observer) : Prop :=
  ∀ i, 0 ≤ (o.summary i).ops ∧ 0 ≤ (o.summary i).duration ∧
    (o.summary i).ops ≤ o.totalOps ∧
    ((o.summary i).ops = 0 → (o.summary i).duration = 0) ∧
    (0 < (o.summary i).ops →
      (o.summary i).ops * o.min i ≤ (o.summary i).duration ∧
      (o.summary i).duration ≤ (o.summary i).ops * o.max i)

/-- A journey that went `kRunning` (10 ns) → `kNetworkSync` (5 ns) →
`kReleased` (still open, entered at 15).  Matches
`runStages [(kNetworkSync, 10), (kReleased, 15)]` from
`construct kRunning 0`. -/
def journeySample : OpJourney :=
  { created := 0
    current := { stage := .kReleased, entered := 15 }
    profile := fun x => if x = 0 then 10 else if x = 1 then 5 else 0 }

/-- The journey of `journeySample` after teardown at time 17:
profile `running = 10`, `egress = 5`, `released = 2`. -/
def journeyDone : OpJourney :=
  { created := 0
    current := { stage := .kDestroyed, entered := 17 }
    profile := fun x => if x = 0 then 10 else if x = 1 then 5 else 2 }

/-- A finalized journey whose profile is all zeros. -/
def journeyZero : OpJourney :=
  { created := 0
    current := { stage := .kDestroyed, entered := 0 }
    profile := fun _ => 0 }

/-- The observer state after capturing `journeyDone` from a fresh state. -/
def obsAfter : Observer := Observer.init.captureCore journeyDone.profile

/-- The observer state after additionally capturing `journeyZero`. -/
def obs2 : Observer := obsAfter.captureCore journeyZero.profile

section Lemmas

/-- A non-terminal stage has a profile index. -/
lemma Stage.profileIdx_isSome {s : Stage} (h : s ≠ Stage.kDestroyed) :
    ∃ i, s.profileIdx = some i := by
  cases s <;> simp [Stage.profileIdx] at h ⊢

/-- `enterStage` on the current stage leaves the journey unchanged. -/
lemma OpJourney.enterStage_self {j : OpJourney} {s : Stage} (t : Int)
    (h : j.current.stage = s) : j.enterStage s t = some j := by
  subst h
  simp [OpJourney.enterStage]

/-- After a successful `enterStage s`, the current stage is `s`. -/
lemma OpJourney.enterStage_some_stage {j j' : OpJourney} {s : Stage} {t : Int}
    (h : j.enterStage s t = some j') : j'.current.stage = s := by
  simp only [OpJourney.enterStage] at h
  split at h
  · cases h; rfl
  · split at h
    · cases h
    · cases h; rfl

/-- `enterStage` never changes `_created`. -/
lemma OpJourney.enterStage_created {j j' : OpJourney} {s : Stage} {t : Int}
    (h : j.enterStage s t = some j') : j'.created = j.created := by
  simp only [OpJourney.enterStage] at h
  split at h
  · cases h; rfl
  · split at h
    · cases h
    · cases h; rfl

/-- After a successful `enterStage`, `_current.entered` is either unchanged
(no-op path) or the clock value of the call. -/
lemma OpJourney.enterStage_entered {j j' : OpJourney} {s : Stage} {t : Int}
    (h : j.enterStage s t = some j') :
    j'.current.entered = j.current.entered ∨ j'.current.entered = t := by
  simp only [OpJourney.enterStage] at h
  split at h
  · cases h; exact Or.inl rfl
  · split at h
    · cases h
    · cases h; exact Or.inr rfl

/-- Updating one profile slot adds its increment to `sumProfile`. -/
lemma OpJourney.sumProfile_update (p : Fin 3 → Int) (i : Fin 3) (d : Int) :
    (setIdx p i (p i + d)) 0 + (setIdx p i (p i + d)) 1 +
      (setIdx p i (p i + d)) 2 = p 0 + p 1 + p 2 + d := by
  fin_cases i <;> simp [setIdx] <;> ring

/-- `enterStage` preserves the accounting equation
`sumProfile = entered - created`. -/
lemma OpJourney.enterStage_sum {j j' : OpJourney} {s : Stage} {t : Int}
    (h : j.enterStage s t = some j')
    (hj : j.sumProfile = j.current.entered - j.created) :
    j'.sumProfile = j'.current.entered - j'.created := by
  simp only [OpJourney.enterStage] at h
  split at h
  · cases h; exact hj
  · split at h
    · cases h
    · cases h
      simp only [OpJourney.sumProfile] at hj ⊢
      rw [OpJourney.sumProfile_update]
      omega

/-- An `enterStage` succeeds whenever the journey is not already in the
terminal stage (and also, trivially, when it is a no-op). -/
lemma OpJourney.enterStage_some {j : OpJourney} (s : Stage) (t : Int)
    (h : j.current.stage ≠ Stage.kDestroyed ∨ j.current.stage = s) :
    ∃ j', j.enterStage s t = some j' := by
  by_cases hc : j.current.stage = s
  · exact ⟨j, OpJourney.enterStage_self t hc⟩
  · have hnd : j.current.stage ≠ Stage.kDestroyed := by
      rcases h with h | h
      · exact h
      · exact absurd h hc
    obtain ⟨i, hi⟩ := Stage.profileIdx_isSome hnd
    have hsome : (j.enterStage s t).isSome := by
      simp only [OpJourney.enterStage]
      rw [if_neg hc, hi]
      rfl
    exact Option.isSome_iff_exists.mp hsome

/-- `runStages` never changes `_created`. -/
lemma OpJourney.runStages_created {j j' : OpJourney} {l : List (Stage × Int)}
    (h : j.runStages l = some j') : j'.created = j.created := by
  induction l generalizing j with
  | nil => cases h; rfl
  | cons p rest ih =>
      obtain ⟨s, t⟩ := p
      simp only [OpJourney.runStages, Option.bind_eq_some] at h
      obtain ⟨j1, h1, h2⟩ := h
      rw [ih h2, OpJourney.enterStage_created h1]

/-- `runStages` preserves the accounting equation. -/
lemma OpJourney.runStages_sum {j j' : OpJourney} {l : List (Stage × Int)}
    (h : j.runStages l = some j')
    (hj : j.sumProfile = j.current.entered - j.created) :
    j'.sumProfile = j'.current.entered - j'.created := by
  induction l generalizing j with
  | nil => cases h; exact hj
  | cons p rest ih =>
      obtain ⟨s, t⟩ := p
      simp only [OpJourney.runStages, Option.bind_eq_some] at h
      obtain ⟨j1, h1, h2⟩ := h
      exact ih h2 (OpJourney.enterStage_sum h1 hj)

/-- After `runStages`, `_current.entered` is the original entry time or one
of the clock values of the trace. -/
lemma OpJourney.runStages_entered {j j' : OpJourney} {l : List (Stage × Int)}
    (h : j.runStages l = some j') :
    j'.current.entered = j.current.entered ∨ ∃ p ∈ l, j'.current.entered = p.2 := by
  induction l generalizing j with
  | nil => cases h; exact Or.inl rfl
  | cons p rest ih =>
      obtain ⟨s, t⟩ := p
      simp only [OpJourney.runStages, Option.bind_eq_some] at h
      obtain ⟨j1, h1, h2⟩ := h
      rcases ih h2 with he | ⟨q, hq, he⟩
      · rcases OpJourney.enterStage_entered h1 with h1e | h1e
        · exact Or.inl (he.trans h1e)
        · exact Or.inr ⟨(s, t), List.mem_cons_self _ _, he.trans h1e⟩
      · exact Or.inr ⟨q, List.mem_cons_of_mem _ hq, he⟩

/-- The `other` value of `OpJourney::append` is total elapsed time minus
the profile sum. -/
lemma OpJourney.append_other (j : OpJourney) (now : Int) :
    (j.append now).2 = (now - j.created) - j.sumProfile := by
  have h3 : List.finRange 3 = [0, 1, 2] := by decide
  simp only [OpJourney.append, OpJourney.sumProfile, h3, List.foldl_cons,
    List.foldl_nil]
  split_ifs <;> simp_all

end Lemmas

section Claims

/-- C1: `enterStage(newStage)` on an `OpJourney` is a no-op when `newStage`
equals the current stage — so two consecutive `enterStage` calls with the
same stage produce exactly the state a single call produces — and otherwise
it reads the clock (`t1`), adds `t1 - _current.entered` to
`_profile[oldStage]`, and sets `_current = {newStage, t1}`. -/
theorem enterStage_noop_or_accumulates (j : OpJourney) (s : Stage) (t1 t2 : Int) :
    (j.current.stage = s → j.enterStage s t1 = some j) ∧
    ((j.enterStage s t1).bind (fun j1 => j1.enterStage s t2) = j.enterStage s t1) ∧
    (j.current.stage ≠ s → ∀ i, j.current.stage.profileIdx = some i →
      j.enterStage s t1 = some
        { created := j.created
          current := { stage := s, entered := t1 }
          profile := setIdx j.profile i
            (j.profile i + (t1 - j.current.entered)) }) := by
  refine ⟨fun h => OpJourney.enterStage_self t1 h, ?_, ?_⟩
  · cases hcall : j.enterStage s t1 with
    | none => rfl
    | some j1 =>
        simp only [Option.some_bind]
        exact OpJourney.enterStage_self t2 (OpJourney.enterStage_some_stage hcall)
  · intro hne i hi
    simp only [OpJourney.enterStage]
    rw [if_neg hne, hi]

/-- Witness for C1 at a concrete journey: the transition case with all
hypotheses discharged. -/
theorem enterStage_noop_or_accumulates_witness :
    (OpJourney.construct Stage.kRunning 0).current.stage ≠ Stage.kNetworkSync ∧
    (OpJourney.construct Stage.kRunning 0).current.stage.profileIdx = some 0 ∧
    (OpJourney.construct Stage.kRunning 0).enterStage Stage.kNetworkSync 10 =
      some
        { created := (OpJourney.construct Stage.kRunning 0).created
          current := { stage := Stage.kNetworkSync, entered := 10 }
          profile := setIdx (OpJourney.construct Stage.kRunning 0).profile 0
            ((OpJourney.construct Stage.kRunning 0).profile 0 +
              (10 - (OpJourney.construct Stage.kRunning 0).current.entered)) } :=
  ⟨by decide, rfl,
    (enterStage_noop_or_accumulates (OpJourney.construct Stage.kRunning 0)
      Stage.kNetworkSync 10 0).2.2 (by decide) 0 rfl⟩

/-- C2: for any sequence of `enterStage` calls after construction,
`sum(_profile) + (now - _current.entered) = now - _created` at any instant;
and at teardown — after the forced transition to `kDestroyed` at a time no
earlier than every clock value seen so far — the `other` bucket computed by
`OpJourney::append` is nonnegative. -/
theorem journey_time_accounting (s0 : Stage) (t0 : Int)
    (trace : List (Stage × Int)) (j : OpJourney) (tD tA : Int)
    (hrun : (OpJourney.construct s0 t0).runStages trace = some j)
    (htrace : ∀ p ∈ trace, p.2 ≤ tD) (ht0 : t0 ≤ tD) (htA : tD ≤ tA) :
    (∀ now : Int, j.sumProfile + (now - j.current.entered) = now - j.created) ∧
    (j.destroy tD).elim False (fun jd => 0 ≤ (jd.append tA).2) := by
  have hsum : j.sumProfile = j.current.entered - j.created := by
    refine OpJourney.runStages_sum hrun ?_
    simp [OpJourney.construct, OpJourney.sumProfile]
  have hentered : j.current.entered ≤ tD := by
    rcases OpJourney.runStages_entered hrun with he | ⟨p, hp, he⟩
    · have : j.current.entered = t0 := he
      omega
    · have := htrace p hp
      omega
  constructor
  · intro now; omega
  · obtain ⟨jd, hjd⟩ : ∃ jd, j.destroy tD = some jd := by
      by_cases hc : j.current.stage = Stage.kDestroyed
      · exact OpJourney.enterStage_some _ _ (Or.inr hc)
      · exact OpJourney.enterStage_some _ _ (Or.inl hc)
    rw [hjd]
    simp only [Option.elim]
    rw [OpJourney.append_other]
    have hdsum : jd.sumProfile = jd.current.entered - jd.created :=
      OpJourney.enterStage_sum hjd hsum
    have hdcreated : jd.created = j.created := OpJourney.enterStage_created hjd
    have hdentered : jd.current.entered ≤ tD := by
      rcases OpJourney.enterStage_entered hjd with he | he <;> omega
    omega

/-- Witness for C2: the concrete scenario `running` 10 ns, `egress` 5 ns,
`released` 2 ns, torn down at 17 and appended at 17. -/
theorem journey_time_accounting_witness :
    (OpJourney.construct Stage.kRunning 0).runStages
        [(Stage.kNetworkSync, 10), (Stage.kReleased, 15)] = some journeySample ∧
    (journeySample.sumProfile + (20 - journeySample.current.entered) =
      20 - journeySample.created) ∧
    (journeySample.destroy 17).elim False (fun jd => 0 ≤ (jd.append 17).2) := by
  have hrun : (OpJourney.construct Stage.kRunning 0).runStages
      [(Stage.kNetworkSync, 10), (Stage.kReleased, 15)] = some journeySample := by
    decide
  have h := journey_time_accounting Stage.kRunning 0
    [(Stage.kNetworkSync, 10), (Stage.kReleased, 15)] journeySample 17 17
    hrun (by decide) (by decide) (by decide)
  exact ⟨hrun, h.1 20, h.2⟩

/-- The loop index list of the stage loops. -/
lemma finRange_three : List.finRange 3 = [0, 1, 2] := by decide

/-- Case split over the three stage indices. -/
lemma fin3_cases : ∀ i : Fin 3, i = 0 ∨ i = 1 ∨ i = 2 := by decide

/-- The stage loop body of `capture` never touches `_totalOps`. -/
lemma Observer.captureLoopBody_totalOps (o : Observer) (k : Fin 3) (d : Int) :
    (o.captureLoopBody k d).totalOps = o.totalOps := by
  by_cases h : d = 0 <;> simp [Observer.captureLoopBody, h]

/-- The stage loop body for stage `k` leaves `_summary` at other stages
unchanged. -/
lemma Observer.captureLoopBody_summary_ne (o : Observer) (i k : Fin 3)
    (d : Int) (h : i ≠ k) :
    (o.captureLoopBody k d).summary i = o.summary i := by
  by_cases h0 : d = 0 <;> simp [Observer.captureLoopBody, h0, setIdx, h]

/-- The stage loop body at its own stage: skip on zero duration, else
count and accumulate. -/
lemma Observer.captureLoopBody_summary_self (o : Observer) (k : Fin 3) (d : Int) :
    (o.captureLoopBody k d).summary k =
      if d = 0 then o.summary k
      else { ops := (o.summary k).ops + 1, duration := (o.summary k).duration + d } := by
  by_cases h : d = 0 <;> simp [Observer.captureLoopBody, h, setIdx]

/-- The stage loop body leaves `_max` at other stages unchanged. -/
lemma Observer.captureLoopBody_max_ne (o : Observer) (i k : Fin 3)
    (d : Int) (h : i ≠ k) :
    (o.captureLoopBody k d).max i = o.max i := by
  by_cases h0 : d = 0 <;> simp [Observer.captureLoopBody, h0, setIdx, h]

/-- The stage loop body at its own stage stores the larger of `_max` and
the duration (sequential semantics of the compare-and-swap loop). -/
lemma Observer.captureLoopBody_max_self (o : Observer) (k : Fin 3) (d : Int) :
    (o.captureLoopBody k d).max k =
      if d = 0 then o.max k else (if o.max k < d then d else o.max k) := by
  by_cases h : d = 0 <;> simp [Observer.captureLoopBody, h, setIdx]

/-- The stage loop body leaves `_min` at other stages unchanged. -/
lemma Observer.captureLoopBody_min_ne (o : Observer) (i k : Fin 3)
    (d : Int) (h : i ≠ k) :
    (o.captureLoopBody k d).min i = o.min i := by
  by_cases h0 : d = 0 <;> simp [Observer.captureLoopBody, h0, setIdx, h]

/-- The stage loop body at its own stage stores the smaller of `_min` and
the duration. -/
lemma Observer.captureLoopBody_min_self (o : Observer) (k : Fin 3) (d : Int) :
    (o.captureLoopBody k d).min k =
      if d = 0 then o.min k else (if d < o.min k then d else o.min k) := by
  by_cases h : d = 0 <;> simp [Observer.captureLoopBody, h, setIdx]

/-- `captureCore` increments `_totalOps` by exactly one. -/
lemma Observer.captureCore_totalOps (o : Observer) (p : Fin 3 → Int) :
    (o.captureCore p).totalOps = o.totalOps + 1 := by
  simp [Observer.captureCore, finRange_three, Observer.captureLoopBody_totalOps]

/-- Closed form of `captureCore` on `_summary`. -/
lemma Observer.captureCore_summary (o : Observer) (p : Fin 3 → Int) (i : Fin 3) :
    (o.captureCore p).summary i =
      if p i = 0 then o.summary i
      else { ops := (o.summary i).ops + 1, duration := (o.summary i).duration + p i } := by
  simp only [Observer.captureCore, finRange_three, List.foldl_cons, List.foldl_nil]
  rcases fin3_cases i with hi | hi | hi <;> subst hi
  · rw [Observer.captureLoopBody_summary_ne _ _ _ _ (by decide),
        Observer.captureLoopBody_summary_ne _ _ _ _ (by decide),
        Observer.captureLoopBody_summary_self]
  · rw [Observer.captureLoopBody_summary_ne _ _ _ _ (by decide),
        Observer.captureLoopBody_summary_self,
        Observer.captureLoopBody_summary_ne _ _ _ _ (by decide)]
  · rw [Observer.captureLoopBody_summary_self,
        Observer.captureLoopBody_summary_ne _ _ _ _ (by decide),
        Observer.captureLoopBody_summary_ne _ _ _ _ (by decide)]

/-- Closed form of `captureCore` on `_max`. -/
lemma Observer.captureCore_max (o : Observer) (p : Fin 3 → Int) (i : Fin 3) :
    (o.captureCore p).max i =
      if p i = 0 then o.max i else (if o.max i < p i then p i else o.max i) := by
  simp only [Observer.captureCore, finRange_three, List.foldl_cons, List.foldl_nil]
  rcases fin3_cases i with hi | hi | hi <;> subst hi
  · rw [Observer.captureLoopBody_max_ne _ _ _ _ (by decide),
        Observer.captureLoopBody_max_ne _ _ _ _ (by decide),
        Observer.captureLoopBody_max_self]
  · rw [Observer.captureLoopBody_max_ne _ _ _ _ (by decide),
        Observer.captureLoopBody_max_self,
        Observer.captureLoopBody_max_ne _ _ _ _ (by decide)]
  · rw [Observer.captureLoopBody_max_self,
        Observer.captureLoopBody_max_ne _ _ _ _ (by decide),
        Observer.captureLoopBody_max_ne _ _ _ _ (by decide)]

/-- Closed form of `captureCore` on `_min`. -/
lemma Observer.captureCore_min (o : Observer) (p : Fin 3 → Int) (i : Fin 3) :
    (o.captureCore p).min i =
      if p i = 0 then o.min i else (if p i < o.min i then p i else o.min i) := by
  simp only [Observer.captureCore, finRange_three, List.foldl_cons, List.foldl_nil]
  rcases fin3_cases i with hi | hi | hi <;> subst hi
  · rw [Observer.captureLoopBody_min_ne _ _ _ _ (by decide),
        Observer.captureLoopBody_min_ne _ _ _ _ (by decide),
        Observer.captureLoopBody_min_self]
  · rw [Observer.captureLoopBody_min_ne _ _ _ _ (by decide),
        Observer.captureLoopBody_min_self,
        Observer.captureLoopBody_min_ne _ _ _ _ (by decide)]
  · rw [Observer.captureLoopBody_min_self,
        Observer.captureLoopBody_min_ne _ _ _ _ (by decide),
        Observer.captureLoopBody_min_ne _ _ _ _ (by decide)]

/-- C3: capturing a finalized journey with a nonzero duration in phase `i`
increments that phase's `ops` by exactly 1, adds exactly the journey's
duration to that phase's summed duration, leaves `_max[i]` at least and
`_min[i]` at most that duration, and increments `_totalOps` by exactly 1. -/
theorem capture_phase_updates (o : Observer) (j : OpJourney) (o' : Observer)
    (i : Fin 3) (hcap : o.capture j = some o') (hnz : j.profile i ≠ 0) :
    (o'.summary i).ops = (o.summary i).ops + 1 ∧
    (o'.summary i).duration = (o.summary i).duration + j.profile i ∧
    j.profile i ≤ o'.max i ∧ o'.min i ≤ j.profile i ∧
    o'.totalOps = o.totalOps + 1 := by
  have ho' : o' = o.captureCore j.profile := by
    simp only [Observer.capture] at hcap
    split at hcap
    · cases hcap; rfl
    · cases hcap
  subst ho'
  rw [Observer.captureCore_summary, Observer.captureCore_max,
    Observer.captureCore_min, Observer.captureCore_totalOps]
  simp only [if_neg hnz]
  exact ⟨trivial, trivial, by split_ifs <;> omega, by split_ifs <;> omega, trivial⟩

/-- Witness for C3: capturing `journeyDone` into a fresh observer, phase 0
(`running`, 10 ns). -/
theorem capture_phase_updates_witness :
    Observer.init.capture journeyDone = some obsAfter ∧
    journeyDone.profile 0 ≠ 0 ∧
    ((obsAfter.summary 0).ops = (Observer.init.summary 0).ops + 1 ∧
     (obsAfter.summary 0).duration =
       (Observer.init.summary 0).duration + journeyDone.profile 0 ∧
     journeyDone.profile 0 ≤ obsAfter.max 0 ∧
     obsAfter.min 0 ≤ journeyDone.profile 0 ∧
     obsAfter.totalOps = Observer.init.totalOps + 1) :=
  ⟨rfl, by decide, capture_phase_updates Observer.init journeyDone obsAfter 0 rfl (by decide)⟩

/-- C10: capture leaves the per-phase counters of a zero-duration phase
completely unchanged; capturing an all-zero profile changes only
`_totalOps`; and after capturing an all-zero journey into a fresh
observer, `_totalOps` strictly exceeds every phase's `ops`. -/
theorem capture_zero_duration_frame (o : Observer) (j : OpJourney) (o' : Observer)
    (hcap : o.capture j = some o') :
    (∀ i, j.profile i = 0 →
      o'.summary i = o.summary i ∧ o'.max i = o.max i ∧ o'.min i = o.min i) ∧
    ((∀ i, j.profile i = 0) → o' = { o with totalOps := o.totalOps + 1 }) ∧
    o'.totalOps = o.totalOps + 1 ∧
    (∀ i, ((Observer.init.captureCore (fun _ => 0)).summary i).ops <
      (Observer.init.captureCore (fun _ => 0)).totalOps) := by
  have ho' : o' = o.captureCore j.profile := by
    simp only [Observer.capture] at hcap
    split at hcap
    · cases hcap; rfl
    · cases hcap
  subst ho'
  refine ⟨?_, ?_, Observer.captureCore_totalOps o j.profile, ?_⟩
  · intro i hz
    simp [Observer.captureCore_summary, Observer.captureCore_max,
      Observer.captureCore_min, hz]
  · intro hall
    have hmax : (o.captureCore j.profile).max = o.max := by
      funext i
      rw [Observer.captureCore_max, if_pos (hall i)]
    have hmin : (o.captureCore j.profile).min = o.min := by
      funext i
      rw [Observer.captureCore_min, if_pos (hall i)]
    have hsummary : (o.captureCore j.profile).summary = o.summary := by
      funext i
      rw [Observer.captureCore_summary, if_pos (hall i)]
    have htotal := Observer.captureCore_totalOps o j.profile
    cases hoc : o.captureCore j.profile
    simp_all
  · intro i
    rw [Observer.captureCore_summary, Observer.captureCore_totalOps]
    simp [Observer.init]

/-- Witness for C10: capturing the all-zero journey into a fresh
observer. -/
theorem capture_zero_duration_frame_witness :
    Observer.init.capture journeyZero = some (Observer.init.captureCore journeyZero.profile) ∧
    ((Observer.init.captureCore journeyZero.profile).totalOps = Observer.init.totalOps + 1 ∧
     (Observer.init.captureCore journeyZero.profile) =
       { Observer.init with totalOps := Observer.init.totalOps + 1 }) :=
  have h := capture_zero_duration_frame Observer.init journeyZero
    (Observer.init.captureCore journeyZero.profile) rfl
  ⟨rfl, h.2.2.1, h.2.1 (fun _ => rfl)⟩

/-- The fresh Observer satisfies the inductive invariant. -/
lemma Observer.init_inv : ObserverInv Observer.init := fun _ =>
  ⟨le_refl 0, le_refl 0, le_refl 0, fun _ => rfl, fun h => absurd h (lt_irrefl 0)⟩

/-- `captureCore` preserves the inductive invariant when the captured
profile is nonnegative. -/
lemma Observer.captureCore_inv (o : Observer) (p : Fin 3 → Int)
    (hp : ∀ i, 0 ≤ p i) (ho : ObserverInv o) :
    ObserverInv (o.captureCore p) := by
  intro i
  obtain ⟨h1, h2, h3, h4, h5⟩ := ho i
  rw [Observer.captureCore_summary, Observer.captureCore_max,
    Observer.captureCore_min, Observer.captureCore_totalOps]
  by_cases hz : p i = 0
  · simp only [if_pos hz]
    exact ⟨h1, h2, by omega, h4, h5⟩
  · simp only [if_neg hz]
    have hpi : 0 < p i := lt_of_le_of_ne (hp i) (Ne.symm hz)
    refine ⟨by omega, by omega, by omega, by omega, fun _ => ?_⟩
    constructor
    · by_cases hops : (o.summary i).ops = 0
      · have hdur := h4 hops
        rw [hops, hdur]
        split_ifs <;> omega
      · have hops' : 0 < (o.summary i).ops := lt_of_le_of_ne h1 (Ne.symm hops)
        obtain ⟨hmin, _⟩ := h5 hops'
        split_ifs with hlt
        · have := mul_le_mul_of_nonneg_left (le_of_lt hlt) h1
          rw [add_mul, one_mul]
          linarith
        · have hge : o.min i ≤ p i := not_lt.mp hlt
          rw [add_mul, one_mul]
          linarith
    · by_cases hops : (o.summary i).ops = 0
      · have hdur := h4 hops
        rw [hops, hdur]
        split_ifs <;> omega
      · have hops' : 0 < (o.summary i).ops := lt_of_le_of_ne h1 (Ne.symm hops)
        obtain ⟨_, hmax⟩ := h5 hops'
        split_ifs with hlt
        · have := mul_le_mul_of_nonneg_left (le_of_lt hlt) h1
          rw [add_mul, one_mul]
          linarith
        · have hge : p i ≤ o.max i := not_lt.mp hlt
          rw [add_mul, one_mul]
          linarith

/-- A successful `capture` equals `captureCore` on the journey's profile. -/
lemma Observer.capture_eq {o o' : Observer} {j : OpJourney}
    (hcap : o.capture j = some o') : o' = o.captureCore j.profile := by
  simp only [Observer.capture] at hcap
  split at hcap
  · cases hcap; rfl
  · cases hcap

/-- Running a list of captures preserves the inductive invariant when all
profiles are nonnegative. -/
lemma Observer.runCaptures_inv {o o' : Observer} {l : List OpJourney}
    (hp : ∀ j ∈ l, ∀ i, 0 ≤ j.profile i) (ho : ObserverInv o)
    (h : o.runCaptures l = some o') : ObserverInv o' := by
  induction l generalizing o with
  | nil => cases h; exact ho
  | cons jj rest ih =>
      simp only [Observer.runCaptures, Option.bind_eq_some] at h
      obtain ⟨o1, hcap, hrest⟩ := h
      rw [Observer.capture_eq hcap] at hrest
      exact ih (fun j hj i => hp j (List.mem_cons_of_mem _ hj) i)
        (Observer.captureCore_inv _ _ (hp jj (List.mem_cons_self _ _)) ho) hrest

/-- The componentwise growth order is reflexive. -/
lemma ObserverLE.refl (o : Observer) : ObserverLE o o :=
  ⟨le_refl _, fun _ => ⟨le_refl _, le_refl _, le_refl _, le_refl _⟩⟩

/-- The componentwise growth order is transitive. -/
lemma ObserverLE.trans {a b c : Observer} (h1 : ObserverLE a b)
    (h2 : ObserverLE b c) : ObserverLE a c := by
  obtain ⟨t1, f1⟩ := h1
  obtain ⟨t2, f2⟩ := h2
  refine ⟨le_trans t1 t2, fun i => ?_⟩
  obtain ⟨a1, a2, a3, a4⟩ := f1 i
  obtain ⟨b1, b2, b3, b4⟩ := f2 i
  exact ⟨le_trans a1 b1, le_trans a2 b2, le_trans a3 b3, le_trans b4 a4⟩

/-- One `captureCore` of a nonnegative profile only grows the Observer. -/
lemma Observer.captureCore_le (o : Observer) (p : Fin 3 → Int)
    (hp : ∀ i, 0 ≤ p i) : ObserverLE o (o.captureCore p) := by
  refine ⟨?_, fun i => ?_⟩
  · rw [Observer.captureCore_totalOps]; omega
  · rw [Observer.captureCore_summary, Observer.captureCore_max,
      Observer.captureCore_min]
    have := hp i
    split_ifs <;> simp_all <;> omega

/-- Running any list of captures with nonnegative profiles only grows the
Observer. -/
lemma Observer.runCaptures_le {o o' : Observer} {l : List OpJourney}
    (hp : ∀ j ∈ l, ∀ i, 0 ≤ j.profile i)
    (h : o.runCaptures l = some o') : ObserverLE o o' := by
  induction l generalizing o with
  | nil => cases h; exact ObserverLE.refl _
  | cons jj rest ih =>
      simp only [Observer.runCaptures, Option.bind_eq_some] at h
      obtain ⟨o1, hcap, hrest⟩ := h
      rw [Observer.capture_eq hcap] at hrest
      exact ObserverLE.trans
        (Observer.captureCore_le _ _ (hp jj (List.mem_cons_self _ _)))
        (ih (fun j hj i => hp j (List.mem_cons_of_mem _ hj) i) hrest)

/-- `runCaptures` splits over list concatenation. -/
lemma Observer.runCaptures_append (o : Observer) (l1 l2 : List OpJourney) :
    o.runCaptures (l1 ++ l2) =
      (o.runCaptures l1).bind (fun o1 => o1.runCaptures l2) := by
  induction l1 generalizing o with
  | nil => rfl
  | cons jj rest ih =>
      cases hc : o.capture jj with
      | none => simp [Observer.runCaptures, hc]
      | some o1 => simp [Observer.runCaptures, hc, ih]

/-- Truncating integer division of a sum of `ops` values lying between
`ops * mn` and `ops * mx` stays between `mn` and `mx`. -/
lemma avg_bounds {ops dur mn mx : Int} (hops : 0 < ops) (hdur : 0 ≤ dur)
    (hlow : ops * mn ≤ dur) (hhigh : dur ≤ ops * mx) :
    mn ≤ Int.tdiv dur ops ∧ Int.tdiv dur ops ≤ mx := by
  rw [Int.tdiv_eq_ediv hdur (le_of_lt hops)]
  constructor
  · exact (Int.le_ediv_iff_mul_le hops).mpr (by rw [mul_comm]; exact hlow)
  · exact Int.ediv_le_of_le_mul hops (by rw [mul_comm]; exact hhigh)

/-- C4: for any sequence of captures from a fresh Observer with
nonnegative finalized profiles, every phase with `ops > 0` satisfies
`min ≤ durationSum / opsSeen ≤ max` (C++ `int64` division), every phase
satisfies `opsSeen ≤ totalOps`, and along any prefix of the sequence the
Observer only grows: the counting fields never decrease, `_max` never
decreases and `_min` never increases. -/
theorem observer_invariants (l1 l2 : List OpJourney) (o1 o2 : Observer)
    (hp : ∀ j ∈ l1 ++ l2, ∀ i, 0 ≤ j.profile i)
    (h1 : Observer.init.runCaptures l1 = some o1)
    (h2 : Observer.init.runCaptures (l1 ++ l2) = some o2) :
    (∀ i, 0 < (o2.summary i).ops →
      o2.min i ≤ Int.tdiv (o2.summary i).duration (o2.summary i).ops ∧
      Int.tdiv (o2.summary i).duration (o2.summary i).ops ≤ o2.max i) ∧
    (∀ i, (o2.summary i).ops ≤ o2.totalOps) ∧
    ObserverLE o1 o2 := by
  have hinv : ObserverInv o2 := Observer.runCaptures_inv hp Observer.init_inv h2
  have hle : ObserverLE o1 o2 := by
    rw [Observer.runCaptures_append, h1] at h2
    simp only [Option.some_bind] at h2
    exact Observer.runCaptures_le
      (fun j hj i => hp j (List.mem_append_right l1 hj) i) h2
  refine ⟨fun i hops => ?_, fun i => (hinv i).2.2.1, hle⟩
  obtain ⟨ha, hb, hc, hd, he⟩ := hinv i
  obtain ⟨hlow, hhigh⟩ := he hops
  exact avg_bounds hops hb hlow hhigh

/-- Witness for C4: an empty prefix followed by the capture of
`journeyDone`. -/
theorem observer_invariants_witness :
    (∀ j ∈ ([] : List OpJourney) ++ [journeyDone], ∀ i, 0 ≤ j.profile i) ∧
    Observer.init.runCaptures [] = some Observer.init ∧
    Observer.init.runCaptures ([] ++ [journeyDone]) = some obsAfter ∧
    0 < (obsAfter.summary 0).ops ∧
    (obsAfter.min 0 ≤
        Int.tdiv (obsAfter.summary 0).duration (obsAfter.summary 0).ops ∧
      Int.tdiv (obsAfter.summary 0).duration (obsAfter.summary 0).ops ≤
        obsAfter.max 0) ∧
    (∀ i, (obsAfter.summary i).ops ≤ obsAfter.totalOps) ∧
    ObserverLE Observer.init obsAfter :=
  have h := observer_invariants [] [journeyDone] Observer.init obsAfter
    (by decide) rfl rfl
  ⟨by decide, rfl, rfl, by decide, h.1 0 (by decide), h.2.1, h.2.2⟩

/-- Componentwise extensionality for the Observer. -/
lemma Observer.ext' {a b : Observer} (ht : a.totalOps = b.totalOps)
    (hmax : ∀ i, a.max i = b.max i) (hmin : ∀ i, a.min i = b.min i)
    (hsum : ∀ i, a.summary i = b.summary i) : a = b := by
  cases a; cases b
  simp only [Observer.mk.injEq]
  exact ⟨ht, funext hmax, funext hmin, funext hsum⟩

/-- Two `captureCore` merges commute (the per-phase updates are adds and
min/max folds, all commutative). -/
lemma Observer.captureCore_comm (o : Observer) (p q : Fin 3 → Int) :
    (o.captureCore p).captureCore q = (o.captureCore q).captureCore p := by
  refine Observer.ext' ?_ (fun i => ?_) (fun i => ?_) (fun i => ?_)
  · simp only [Observer.captureCore_totalOps]
  · simp only [Observer.captureCore_max]
    split_ifs <;> omega
  · simp only [Observer.captureCore_min]
    split_ifs <;> omega
  · simp only [Observer.captureCore_summary]
    split_ifs <;> simp_all [SummaryEntry.mk.injEq] <;> omega

/-- When every journey in the list is finalized, `runCaptures` is the
plain fold of `captureCore` over the profiles. -/
lemma Observer.runCaptures_all_destroyed (o : Observer) (l : List OpJourney)
    (hd : ∀ j ∈ l, j.current.stage = Stage.kDestroyed) :
    o.runCaptures l =
      some (l.foldl (fun acc j => acc.captureCore j.profile) o) := by
  induction l generalizing o with
  | nil => rfl
  | cons jj rest ih =>
      have hjj := hd jj (List.mem_cons_self _ _)
      simp only [Observer.runCaptures, Observer.capture, if_pos hjj,
        Option.some_bind, List.foldl_cons]
      exact ih _ (fun j hj => hd j (List.mem_cons_of_mem _ hj))

/-- The `captureCore` fold is invariant under permutations of the captured
journeys. -/
lemma foldl_captureCore_perm {l1 l2 : List OpJourney} (h : l1.Perm l2)
    (o : Observer) :
    l1.foldl (fun acc j => acc.captureCore j.profile) o =
      l2.foldl (fun acc j => acc.captureCore j.profile) o := by
  induction h generalizing o with
  | nil => rfl
  | cons x _ ih => simp only [List.foldl_cons]; exact ih _
  | swap x y l => simp only [List.foldl_cons]; rw [Observer.captureCore_comm]
  | trans _ _ ih1 ih2 => exact (ih1 o).trans (ih2 o)

/-- The `captureCore` fold adds the list length to `_totalOps`. -/
lemma foldl_captureCore_totalOps (o : Observer) (l : List OpJourney) :
    (l.foldl (fun acc j => acc.captureCore j.profile) o).totalOps =
      o.totalOps + l.length := by
  induction l generalizing o with
  | nil => simp
  | cons jj rest ih =>
      simp only [List.foldl_cons, List.length_cons, ih,
        Observer.captureCore_totalOps]
      omega

/-- C6: capturing a multiset of finalized journeys in any sequential order
yields the same final Observer state, and the final `_totalOps` from a
fresh Observer equals the number of journeys captured. -/
theorem capture_order_independence (l1 l2 : List OpJourney)
    (o o' : Observer) (hperm : l1.Perm l2)
    (hd : ∀ j ∈ l1, j.current.stage = Stage.kDestroyed) :
    o.runCaptures l1 = o.runCaptures l2 ∧
    (Observer.init.runCaptures l1 = some o' → o'.totalOps = l1.length) := by
  have hd2 : ∀ j ∈ l2, j.current.stage = Stage.kDestroyed :=
    fun j hj => hd j (hperm.mem_iff.mpr hj)
  constructor
  · rw [Observer.runCaptures_all_destroyed o l1 hd,
      Observer.runCaptures_all_destroyed o l2 hd2,
      foldl_captureCore_perm hperm]
  · intro h
    rw [Observer.runCaptures_all_destroyed _ l1 hd] at h
    cases h
    rw [foldl_captureCore_totalOps]
    simp [Observer.init]

/-- Witness for C6: the two orders of capturing `journeyDone` and
`journeyZero`. -/
theorem capture_order_independence_witness :
    [journeyDone, journeyZero].Perm [journeyZero, journeyDone] ∧
    (∀ j ∈ [journeyDone, journeyZero],
      j.current.stage = Stage.kDestroyed) ∧
    Observer.init.runCaptures [journeyDone, journeyZero] =
      Observer.init.runCaptures [journeyZero, journeyDone] ∧
    Observer.init.runCaptures [journeyDone, journeyZero] = some obs2 ∧
    obs2.totalOps = [journeyDone, journeyZero].length :=
  have hperm : [journeyDone, journeyZero].Perm [journeyZero, journeyDone] :=
    List.Perm.swap journeyZero journeyDone []
  have h := capture_order_independence [journeyDone, journeyZero]
    [journeyZero, journeyDone] Observer.init obs2 hperm (by decide)
  ⟨hperm, by decide, h.1, rfl, h.2 rfl⟩

/-- C7 (amended): for a journey not already in the terminal stage and a
non-terminal guard stage `s`, a `ScopedStage` records the current stage at
construction, enters `s`, and its destructor restores the recorded stage,
so the current stage after the guard equals the current stage before it. -/
theorem scopedStage_restores_prior (j : OpJourney) (s : Stage) (t1 t2 : Int)
    (hj : j.current.stage ≠ Stage.kDestroyed) (hs : s ≠ Stage.kDestroyed) :
    (ScopedStage.construct j s t1).1.oldStage = j.current.stage ∧
    ((ScopedStage.construct j s t1).2).elim False (fun j1 =>
      j1.current.stage = s ∧
      ((ScopedStage.construct j s t1).1.destruct j1 t2).elim False (fun j2 =>
        j2.current.stage = j.current.stage)) := by
  refine ⟨rfl, ?_⟩
  obtain ⟨j1, hj1⟩ := OpJourney.enterStage_some s t1 (Or.inl hj)
  have hstage1 : j1.current.stage = s := OpJourney.enterStage_some_stage hj1
  simp only [ScopedStage.construct]
  rw [hj1]
  simp only [Option.elim]
  refine ⟨hstage1, ?_⟩
  obtain ⟨j2, hj2⟩ := OpJourney.enterStage_some j.current.stage t2
    (Or.inl (by rw [hstage1]; exact hs))
  simp only [ScopedStage.destruct]
  rw [hj2]
  simp only [Option.elim]
  exact OpJourney.enterStage_some_stage hj2

/-- Counterexample for C7 as stated ("every stage S"): constructing a
`ScopedStage` with the terminal stage `kDestroyed` on a running journey
makes the destructor call `enterStage(kRunning)` from `kDestroyed`, which
writes `_profile[kDestroyed]` out of bounds; no restored journey results,
so the prior stage is not restored. -/
theorem scopedStage_destroyed_cex :
    ((ScopedStage.construct (OpJourney.construct Stage.kRunning 0)
        Stage.kDestroyed 1).2.bind (fun j1 =>
      (ScopedStage.construct (OpJourney.construct Stage.kRunning 0)
        Stage.kDestroyed 1).1.destruct j1 2)) = none := by
  decide

/-- Witness for C7 (amended) at a concrete journey and stage. -/
theorem scopedStage_restores_prior_witness :
    (OpJourney.construct Stage.kRunning 0).current.stage ≠ Stage.kDestroyed ∧
    Stage.kNetworkSync ≠ Stage.kDestroyed ∧
    ((ScopedStage.construct (OpJourney.construct Stage.kRunning 0)
        Stage.kNetworkSync 1).1.oldStage =
      (OpJourney.construct Stage.kRunning 0).current.stage ∧
    ((ScopedStage.construct (OpJourney.construct Stage.kRunning 0)
        Stage.kNetworkSync 1).2).elim False (fun j1 =>
      j1.current.stage = Stage.kNetworkSync ∧
      ((ScopedStage.construct (OpJourney.construct Stage.kRunning 0)
          Stage.kNetworkSync 1).1.destruct j1 2).elim False (fun j2 =>
        j2.current.stage =
          (OpJourney.construct Stage.kRunning 0).current.stage))) :=
  ⟨by decide, by decide,
    scopedStage_restores_prior (OpJourney.construct Stage.kRunning 0)
      Stage.kNetworkSync 1 2 (by decide) (by decide)⟩

/-- The entry list of `Observer::append` in closed form. -/
lemma Observer.append_entries (o : Observer) (reload : Int) :
    (o.append reload).1 =
      (if (o.summary 0).ops = 0 then [] else
        [(stageToString (Stage.ofIdx 0), o.min 0, o.max 0,
          Int.tdiv (o.summary 0).duration (o.summary 0).ops)]) ++
      (if (o.summary 1).ops = 0 then [] else
        [(stageToString (Stage.ofIdx 1), o.min 1, o.max 1,
          Int.tdiv (o.summary 1).duration (o.summary 1).ops)]) ++
      (if (o.summary 2).ops = 0 then [] else
        [(stageToString (Stage.ofIdx 2), o.min 2, o.max 2,
          Int.tdiv (o.summary 2).duration (o.summary 2).ops)]) := by
  simp only [Observer.append, finRange_three, List.foldl_cons, List.foldl_nil]
  split_ifs <;> simp

/-- C8: `Observer::append` renders the first `_totalOps` load as
`operations`; renders `stable` as true exactly when the reload equals that
first load; omits every phase with `ops = 0`; and renders, for every phase
with `ops > 0`, an entry with that phase's min, max and
`avg = durationSum / opsSeen`. -/
theorem observer_append_renders (o : Observer) (reload : Int) :
    (o.append reload).2.1 = o.totalOps ∧
    ((o.append reload).2.2 = true ↔ o.totalOps = reload) ∧
    (∀ i, (o.summary i).ops = 0 →
      ∀ e ∈ (o.append reload).1, e.1 ≠ stageToString (Stage.ofIdx i)) ∧
    (∀ i, (o.summary i).ops ≠ 0 →
      (stageToString (Stage.ofIdx i), o.min i, o.max i,
        Int.tdiv (o.summary i).duration (o.summary i).ops) ∈
        (o.append reload).1) := by
  refine ⟨rfl, by simp [Observer.append], ?_, ?_⟩
  · intro i hz e he
    rw [Observer.append_entries] at he
    rcases fin3_cases i with hi | hi | hi <;> subst hi <;>
      simp only [if_pos hz, List.append_nil, List.nil_append,
        List.mem_append, List.mem_singleton] at he <;>
      split_ifs at he <;>
      simp_all [stageToString, Stage.ofIdx] <;>
      rcases he with he | he <;> simp_all
  · intro i hnz
    rw [Observer.append_entries]
    rcases fin3_cases i with hi | hi | hi <;> subst hi <;>
      simp only [if_neg hnz, List.mem_append, List.mem_singleton] <;>
      split_ifs <;> simp

/-- Witness for C8 at the observer produced by capturing `journeyDone`. -/
theorem observer_append_renders_witness :
    ((obsAfter.append 1).2.1 = obsAfter.totalOps) ∧
    (obsAfter.summary 0).ops ≠ 0 ∧
    (stageToString (Stage.ofIdx 0), obsAfter.min 0, obsAfter.max 0,
      Int.tdiv (obsAfter.summary 0).duration (obsAfter.summary 0).ops) ∈
      (obsAfter.append 1).1 :=
  ⟨(observer_append_renders obsAfter 1).1, by decide,
    (observer_append_renders obsAfter 1).2.2.2 0 (by decide)⟩

/-- C9: with tracking enabled and on the owning thread, calling `enable`
when a Journey is already attached fails the `invariant` (a fatal
assertion, not a recoverable error), while a successful `enable` attaches
exactly one Journey that starts in the `kRunning` stage with
`created = entered = now`. -/
theorem enable_twice_faults (j : OpJourney) (now : Int) :
    OpJourney.enable true true (some j) now =
      .error "invariant failure: journey already attached" ∧
    OpJourney.enable true true none now =
      .ok (some (OpJourney.construct Stage.kRunning now)) ∧
    (OpJourney.construct Stage.kRunning now).current.stage = Stage.kRunning ∧
    (OpJourney.construct Stage.kRunning now).created = now ∧
    (OpJourney.construct Stage.kRunning now).current.entered = now :=
  ⟨rfl, rfl, rfl, rfl, rfl⟩

/-- C5 (amended): every declared value of the `Stage` enumeration is
mapped by the `stageToString` switch to its fixed name, never reaching the
`default` branch. -/
theorem stageToString_covers_enum (s : Stage) :
    stageToStringRaw s.toNat = some (stageToString s) := by
  cases s <;> rfl

/-- Counterexample for C5 as stated ("no default/fallback case"): the
switch in `stageToString` does contain a `default: MONGO_UNREACHABLE;`
branch, reachable for any ordinal outside the declared enumerators, so a
stage added without a name would hit a runtime fatal branch rather than a
compile-time exhaustiveness error. -/
theorem stageToString_default_branch_cex : stageToStringRaw 4 = none := rfl

end Claims

end OpJourneyModel
